import Mathlib

/-!
Verification of the obsidiosaurus incremental conversion engine and markdown
rewrite pipeline against its specification.

The development shallowly embeds the TypeScript sources:
* `MarkdownFileHandler.ts` — the class-based reconciler variant
  (`checkTargetFiles`, `checkSourceFiles`, `convertAndLog`, `saveMdFilesToJson`,
  `resetDatabase`, `removeEmptyDirectories`) and the markdown processor
  (`processMarkdown`, `convertObsidianLinks`, `parseAdmonitionData`,
  `convertAdmonition`, `checkForLinks`, `processUrlParts`, `checkForAssets`,
  `addToAssetJson`, `getOrCreateSize`, `processImage`, `processAsset`) and the
  `FileProcessor` lookup helper.
* the unnamed `index`/`processor` modules — `obsidiosaurusProcess`,
  `getFilesToDelete`, `deleteParentDirectories`, `copyMarkdownFilesToTarget`.

Strings manipulated character-by-character by the pipeline are embedded as
`List Char`; plain path identifiers are embedded as `String`.  JavaScript
`Date` modification stamps are embedded as `Int` (only their ordering is ever
used).  Fallible code (`throw`) is embedded with `Except`.  File-system
effects are embedded as explicit state: a `String → Option String` store for
the two persisted JSON documents, and a directory/file list for the
directory-pruning walks.
-/

/-! ### Generic list helpers mirroring the JavaScript string/array primitives -/

/-- Boolean prefix test (model of pattern matching at one position). -/
def isPre [BEq α] : List α → List α → Bool
  | [], _ => true
  | _ :: _, [] => false
  | a :: as, b :: bs => a == b && isPre as bs

/-- Boolean suffix test (JS `String.prototype.endsWith`). -/
def isSuffix [BEq α] (pat s : List α) : Bool := isPre pat.reverse s.reverse

/-- Auxiliary scan for `findSub`, tracking the current index. -/
def findSubAux [BEq α] (pat : List α) : List α → Nat → Option Nat
  | [], i => if pat == [] then some i else none
  | a :: s, i => if isPre pat (a :: s) then some i else findSubAux pat s (i + 1)

/-- Index of the first occurrence of `pat` in `s` (JS `String.prototype.indexOf`
with a string argument). -/
def findSub [BEq α] (pat s : List α) : Option Nat := findSubAux pat s 0

/-- JS `String.prototype.includes`. -/
def containsSub [BEq α] (pat s : List α) : Bool := (findSub pat s).isSome

/-- JS `String.prototype.replace` with a plain-string pattern: replace the
first occurrence only. -/
def replaceFirst [BEq α] (s pat repl : List α) : List α :=
  match findSub pat s with
  | none => s
  | some i => s.take i ++ repl ++ s.drop (i + pat.length)

/-- JS `String.prototype.split` with a one-character separator. -/
def splitOnChar (c : Char) : List Char → List (List Char)
  | [] => [[]]
  | x :: xs =>
    match splitOnChar c xs with
    | [] => [[]]
    | h :: t => if x == c then [] :: h :: t else (x :: h) :: t

/-- JS `String.prototype.trim`. -/
def trimL (s : List Char) : List Char :=
  ((s.dropWhile (·.isWhitespace)).reverse.dropWhile (·.isWhitespace)).reverse

/-- Replace every occurrence of `"%20"` (JS `split("%20").join(r)` /
`replace(/%20/g, r)`). -/
def replacePct20 (repl : List Char) : List Char → List Char
  | '%' :: '2' :: '0' :: rest => repl ++ replacePct20 repl rest
  | c :: rest => c :: replacePct20 repl rest
  | [] => []

/-- JS `Array.prototype.find`. -/
def findFirst (p : α → Bool) : List α → Option α
  | [] => none
  | x :: xs => if p x then some x else findFirst p xs

/-- JS `Array.prototype.findIndex`, returning the witness as well. -/
def findWithIdx (p : α → Bool) : List α → Option (Nat × α)
  | [] => none
  | x :: xs =>
    if p x then some (0, x) else (findWithIdx p xs).map (fun r => (r.1 + 1, r.2))

/-- JS `Array.prototype.includes`. -/
def includesB [BEq α] : List α → α → Bool
  | [], _ => false
  | x :: xs, a => a == x || includesB xs a

/-- In-place mutation of the first element satisfying `p` (model of JS code
that obtains an object with `find`/an index and mutates it inside the array). -/
def updateFirst (p : α → Bool) (f : α → α) : List α → List α
  | [] => []
  | x :: xs => if p x then f x :: xs else x :: updateFirst p f xs

/-- Remove the first occurrence of `a` (model of `Array.prototype.splice` at
the index of a found element). -/
def eraseFirst [BEq α] (a : α) : List α → List α
  | [] => []
  | x :: xs => if x == a then xs else x :: eraseFirst a xs

/-- JS `arr[arr.length - 1] = v` on a non-empty array. -/
def setLast (l : List (List Char)) (x : List Char) : List (List Char) :=
  l.dropLast ++ [x]

/-! ### Reconciler data model (`MarkdownFileHandler.ts`) -/

/-- A parsed target-side markdown file (class `MarkdownFile`): identity plus
modification stamp, the only fields the reconciler reads. -/
structure MarkdownFile where
  absolutepath : String
  dateModified : Int
deriving DecidableEq

/-- A parsed source-side markdown file (class `MarkdownSourceFile`); its
computed `targetPath` is recorded in the ledger after conversion. -/
structure MarkdownSourceFile where
  absolutepath : String
  dateModified : Int
  targetPath : String
deriving DecidableEq

/-- One ledger record (interface `MdConversionEntry`). -/
structure MdConversionEntry where
  sourcePath : String
  targetPath : String
deriving DecidableEq

/-- Body of the `forEach` loop of `checkTargetFiles`: decide the fate of one
target file.  Returns whether the target file is deleted, and the ledger after
the step (`deleteAndLog` splices the entry out exactly when an `entryIndex`
was passed, i.e. in the found-entry branch). -/
def checkTargetStep (targetFile : MarkdownFile) (sourceFiles : List MarkdownFile)
    (mdConversionEntries : List MdConversionEntry) : Bool × List MdConversionEntry :=
  match findWithIdx (fun entry => targetFile.absolutepath == entry.targetPath) mdConversionEntries with
  | none => (true, mdConversionEntries)
  | some (entryIndex, entry) =>
    match findWithIdx (fun sourceFile => sourceFile.absolutepath == entry.sourcePath) sourceFiles with
    | none => (true, mdConversionEntries.eraseIdx entryIndex)
    | some (_, sourceFile) =>
      if sourceFile.dateModified > targetFile.dateModified then
        (true, mdConversionEntries.eraseIdx entryIndex)
      else
        (false, mdConversionEntries)

/-- `checkTargetFiles`: fold the per-target step over all target files,
threading the mutable ledger and collecting the deleted targets. -/
def checkTargetFiles (targetFiles sourceFiles : List MarkdownFile)
    (mdConversionEntries : List MdConversionEntry) :
    List MarkdownFile × List MdConversionEntry :=
  targetFiles.foldl
    (fun acc t =>
      let r := checkTargetStep t sourceFiles acc.2
      (if r.1 then acc.1 ++ [t] else acc.1, r.2))
    ([], mdConversionEntries)

/-- Body of the `forEach` loop of `checkSourceFiles`: whether this source file
must be (re)converted. -/
def checkSourceStep (sourceFile : MarkdownSourceFile) (targetFiles : List MarkdownFile)
    (mdConversionEntries : List MdConversionEntry) : Bool :=
  match findWithIdx (fun entry => entry.sourcePath == sourceFile.absolutepath) mdConversionEntries with
  | none => true
  | some (_, entry) =>
    match findWithIdx (fun targetFile => targetFile.absolutepath == entry.targetPath) targetFiles with
    | none => true
    | some (_, targetFile) => sourceFile.dateModified > targetFile.dateModified

/-- `convertAndLog`: run the conversion (the outcome of
`sourceFile.convertMarkdownFile`, a collaborator outside this module, is
passed in); a failure is rethrown as a fresh `Error` (empty message) before
the ledger push, so a failing conversion never mutates the ledger. -/
def convertAndLog (conversionResult : Except String Unit)
    (sourceFile : MarkdownSourceFile) (mdConversionEntries : List MdConversionEntry)
    (_reason : String) : Except String (List MdConversionEntry) :=
  match conversionResult with
  | .error _ => .error ""
  | .ok _ => .ok (mdConversionEntries ++ [⟨sourceFile.absolutepath, sourceFile.targetPath⟩])

/-- `checkSourceFiles`: iterate over the source files; a throw from
`convertAndLog` aborts the whole loop (the `forEach` body does not catch). -/
def checkSourceFiles (convert : MarkdownSourceFile → Except String Unit) :
    List MarkdownSourceFile → List MarkdownFile → List MdConversionEntry →
    Except String (List MdConversionEntry)
  | [], _, mdConversionEntries => .ok mdConversionEntries
  | s :: rest, targetFiles, mdConversionEntries =>
    if checkSourceStep s targetFiles mdConversionEntries then
      match convertAndLog (convert s) s mdConversionEntries "" with
      | .error e => .error e
      | .ok entries1 => checkSourceFiles convert rest targetFiles entries1
    else
      checkSourceFiles convert rest targetFiles mdConversionEntries

/-! ### The `getFilesToDelete` / `copyMarkdownFilesToTarget` variant -/

/-- Per-file record of the function-based variant (interface
`SourceFileInfo`, restricted to the fields the delete decision reads). -/
structure FileInfo where
  pathSourceRelative : String
  dateModified : Int
deriving DecidableEq

/-- Body of the `forEach` loop of `getFilesToDelete`: a target record is
scheduled for deletion when no source matches its relative path, or when the
matching source's stamp is strictly newer (`targetDate.getTime() <
sourceDate.getTime()`). -/
def getFilesToDeleteStep (sourceJson : List FileInfo) (targetFile : FileInfo) : Bool :=
  match findFirst (fun file => file.pathSourceRelative == targetFile.pathSourceRelative) sourceJson with
  | none => true
  | some s => targetFile.dateModified < s.dateModified

/-- `getFilesToDelete`: indices of the target records scheduled for deletion. -/
def getFilesToDelete (sourceJson targetJson : List FileInfo) : List Nat :=
  (targetJson.enum.filter (fun p => getFilesToDeleteStep sourceJson p.2)).map (fun p => p.1)

/-- Run all per-file conversions; `Promise.all` rejects with the first
rejection. -/
def runAll (convertF : α → Except String Unit) : List α → Except String Unit
  | [] => .ok ()
  | f :: rest =>
    match convertF f with
    | .error e => .error e
    | .ok _ => runAll convertF rest

/-- `copyMarkdownFilesToTarget`: convert every scheduled file; only when all
conversions succeed are the results pushed onto `targetJson`.  A rejected
conversion rejects the whole call before any push. -/
def copyMarkdownFilesToTarget (convertF : α → Except String Unit)
    (files targetJson : List α) : Except String (List α) :=
  match runAll convertF files with
  | .error e => .error e
  | .ok _ => .ok (targetJson ++ files)

/-! ### Persistence of the ledger and asset-registry documents -/

/-- The process-scope JSON document store: path to file contents. -/
def FsState := String → Option String

/-- Write a file (JS `fs.writeFileSync` / `fs.promises.writeFile`). -/
def fsWrite (fs : FsState) (p v : String) : FsState :=
  fun q => if q == p then some v else fs q

/-- Unlink a file (JS `fs.unlinkSync`). -/
def fsDelete (fs : FsState) (p : String) : FsState :=
  fun q => if q == p then none else fs q

/-- `saveMdFilesToJson`: overwrite the data file with the serialized ledger. -/
def saveMdFilesToJson (dataFile json : String) (fs : FsState) : FsState :=
  fsWrite fs dataFile json

/-- `resetDatabase`: unlink the data file. -/
def resetDatabase (dataFile : String) (fs : FsState) : FsState :=
  fsDelete fs dataFile

/-- The persistence tail of `startConversion`: `saveMdFilesToJson` on the
final ledger, then (after `removeEmptyDirectories`, which touches no files)
`resetDatabase` on the very same data file. -/
def startConversionPersist (dataFile json : String) (fs : FsState) : FsState :=
  resetDatabase dataFile (saveMdFilesToJson dataFile json fs)

/-- `loadMdFilesFromJson`: absence of the data file yields the empty ledger;
JSON mechanics are abstracted into the `parse` collaborator. -/
def loadMdFilesFromJson (dataFile : String) (fs : FsState)
    (parse : String → List MdConversionEntry) : List MdConversionEntry :=
  match fs dataFile with
  | none => []
  | some s => parse s

/-- The persistence tail of `obsidiosaurusProcess`: `copyMarkdownFilesToTarget`
writes `assetInfo.json`, then the caller writes `allFilesInfo.json`; neither
file is deleted afterwards. -/
def obsidiosaurusPersist (targetJsonSnapshot assetJsonSnapshot : String)
    (fs : FsState) : FsState :=
  fsWrite (fsWrite fs "assetInfo.json" assetJsonSnapshot) "allFilesInfo.json" targetJsonSnapshot

/-! ### Directory pruning (`deleteParentDirectories`, `removeEmptyDirectories`)

The directory tree is embedded as explicit lists of existing directories and
files, each a segment list rooted at the filesystem root `[]`
(`path.dirname` is `List.dropLast`; `dirname(d) = d` exactly at the root). -/

/-- Directory-tree state for the pruning walks. -/
structure Fs where
  dirs : List (List String)
  files : List (List String)
deriving DecidableEq

/-- Does directory `d` still contain an entry (a strictly longer path it
prefixes)?  `rmdir` on such a directory fails with `ENOTEMPTY`. -/
def dirNonEmpty (fs : Fs) (d : List String) : Bool :=
  (fs.dirs ++ fs.files).any (fun x => isPre d x && x != d)

/-- One `fs.promises.rmdir` call: `some` of the new state on success, `none`
on any error (`ENOTEMPTY`, `ENOENT`, ...) — the caller stops walking either
way and treats no error as fatal. -/
def rmdirTry (fs : Fs) (d : List String) : Option Fs :=
  if dirNonEmpty fs d then none
  else if includesB fs.dirs d then some { fs with dirs := eraseFirst d fs.dirs }
  else none

/-- The `while (dirPath !== path.dirname(dirPath))` loop of
`deleteParentDirectories`; the fuel (always sufficient, see
`deleteParentDirectories`) mirrors the strictly shrinking path. -/
def deleteParentDirsWalk : Nat → Fs → List String → Fs
  | 0, fs, _ => fs
  | fuel + 1, fs, dirPath =>
    if dirPath = [] then fs
    else
      match rmdirTry fs dirPath with
      | none => fs
      | some fs1 => deleteParentDirsWalk fuel fs1 dirPath.dropLast

/-- `deleteParentDirectories`: starting from `path.dirname(filepath)`, remove
now-empty parent directories upward until the filesystem root or the first
failing `rmdir`. -/
def deleteParentDirectories (fs : Fs) (filepath : List String) : Fs :=
  deleteParentDirsWalk filepath.length fs filepath.dropLast

/-- The immediate subdirectories of `d` (the `readdirSync` + `isDirectory`
filter of `removeEmptyDirectories`). -/
def childDirs (fs : Fs) (d : List String) : List (List String) :=
  fs.dirs.filter (fun x => x.length == d.length + 1 && isPre d x)

/-- `removeEmptyDirectories` (class variant): recursively prune empty
subdirectories of `directoryPath`; the directory itself is never removed at
its own level, and children are kept when `directoryPath` equals the
configured source folder.  Fuel bounds the recursion depth. -/
def removeEmptyDirectories : Nat → Fs → List String → List String → Fs
  | 0, fs, _, _ => fs
  | fuel + 1, fs, directoryPath, sourceFolder =>
    (childDirs fs directoryPath).foldl
      (fun fs1 dir =>
        let fs2 := removeEmptyDirectories fuel fs1 dir sourceFolder
        if !dirNonEmpty fs2 dir && directoryPath ≠ sourceFolder then
          { fs2 with dirs := eraseFirst dir fs2.dirs }
        else fs2)
      fs

/-! ### Markdown rewrite pipeline: inventory lookups -/

/-- One inventory record (`Partial<SourceFileInfo>` restricted to the fields
the lookups read). -/
structure SourceFileInfo where
  fileName : List Char
  pathSourceRelative : List Char
deriving DecidableEq

/-- `FileProcessor` (fileProcessor.ts): a document inventory and an
attachment inventory. -/
structure FileProcessor where
  sourceFileInfoList : List SourceFileInfo
  assetInfoList : List SourceFileInfo
deriving DecidableEq

/-- `FileProcessor.getPathOfFile`: resolve a document by exact file name. -/
def FileProcessor.getPathOfFile (fp : FileProcessor) (filename : List Char) :
    Option (List Char) :=
  (findFirst (fun fileInfo => fileInfo.fileName == filename) fp.sourceFileInfoList).map
    (·.pathSourceRelative)

/-- `FileProcessor.getPathOfImage`: resolve an attachment by exact file name. -/
def FileProcessor.getPathOfImage (fp : FileProcessor) (filename : List Char) :
    Option (List Char) :=
  (findFirst (fun assetInfo => assetInfo.fileName == filename) fp.assetInfoList).map
    (·.pathSourceRelative)

/-- The relevant configuration fields of `config`. -/
structure Config where
  convertedImageType : List Char
  docusaurusAssetSubfolderName : List Char
deriving DecidableEq

/-! ### Wiki-style link matching

`/(?:!)?\[\[(.*?)\]\]/` without the global flag: the leftmost match starts at
the first `"[["` (preceded by a `!` when one is directly adjacent), and the
lazy group stops at the first following `"]]"`. -/

/-- First regex match of `(?:!)?\[\[(.*?)\]\]`: `(match[0], match[1])`. -/
def wikiMatch (s : List Char) : Option (List Char × List Char) :=
  match findSub "[[".data s with
  | none => none
  | some i =>
    match findSub "]]".data (s.drop (i + 2)) with
    | none => none
    | some d =>
      let content := (s.drop (i + 2)).take d
      let bang := decide (0 < i) && (s.get? (i - 1) == some '!')
      some ((if bang then ['!'] else []) ++ "[[".data ++ content ++ "]]".data, content)

/-- `convertObsidianLinks`: rewrite the first wiki-style reference on the
line, resolving first as a document, then as an image; an unresolved
reference leaves the line unchanged. -/
def convertObsidianLinks (line : List Char) (fileProcessor : FileProcessor) : List Char :=
  match wikiMatch line with
  | none => line
  | some (m0, content) =>
    let split := splitOnChar '|' content
    let part0 := split.headD []
    let title := split.getLastD []
    let filenameWithExtension :=
      if isSuffix ".md".data part0 then part0 else part0 ++ ".md".data
    match fileProcessor.getPathOfFile filenameWithExtension with
    | some newPath =>
      replaceFirst line m0 ('[' :: title ++ "](".data ++ newPath ++ ")".data)
    | none =>
      match fileProcessor.getPathOfImage content with
      | some newPath => replaceFirst line m0 ("![](".data ++ newPath ++ ")".data)
      | none => line

/-! ### Callout / quote conversion -/

/-- Interface `Admonition`. -/
structure Admonition where
  type : List Char
  title : List Char
  whitespaces : Nat
deriving DecidableEq

/-- Index of the last occurrence of a character. -/
def lastIdxOfChar (c : Char) (s : List Char) : Option Nat :=
  (s.reverse.findIdx? (· == c)).map (fun k => s.length - 1 - k)

/-- `parseAdmonitionData`: match `/^>\s*\[!(?<type>.*)](?<title>.*)?/`.  The
greedy `type` group extends to the last `]` of the line; `whitespaces` is
`line.indexOf("[") - line.indexOf(">")`. -/
def parseAdmonitionData (line : List Char) : Admonition :=
  match line with
  | '>' :: rest =>
    match rest.dropWhile (·.isWhitespace) with
    | '[' :: '!' :: r2 =>
      match lastIdxOfChar ']' r2 with
      | none => ⟨[], [], 0⟩
      | some j =>
        ⟨r2.take j, trimL (r2.drop (j + 1)),
          ((line.findIdx? (· == '[')).getD 0) - ((line.findIdx? (· == '>')).getD 0)⟩
    | _ => ⟨[], [], 0⟩
  | _ => ⟨[], [], 0⟩

/-- `convertAdmonition`: the per-line callout/quote state machine.  Returns
the emitted line and the updated `(inAdmonition, inQuote, admonition)` state. -/
def convertAdmonition (line : List Char) (isInAdmonition isInQuote : Bool)
    (admonitionIn : Admonition) : List Char × Bool × Bool × Admonition :=
  let admonition :=
    if !isInAdmonition && !isInQuote then parseAdmonitionData line else admonitionIn
  if isInAdmonition then
    if trimL line == [] then (":::\n".data, false, isInQuote, admonition)
    else (line.drop admonition.whitespaces, isInAdmonition, isInQuote, admonition)
  else if isInQuote then
    if trimL line == [] then
      (">\n> â€” ".data ++ admonition.title ++ ['\n'], isInAdmonition, false, admonition)
    else (line, isInAdmonition, isInQuote, admonition)
  else if admonition.type != [] then
    if admonition.type == "quote".data then ([], isInAdmonition, true, admonition)
    else
      let l1 := ":::".data ++ admonition.type
      let l2 := if admonition.title != [] then l1 ++ ' ' :: admonition.title else l1
      (l2 ++ ['\n'], true, isInQuote, admonition)
  else (line, isInAdmonition, isInQuote, admonition)

/-- The line loop of `processMarkdown` restricted to the callout state
machine: each emitted line is appended to the transformed content followed by
`'\n'`. -/
def runCalloutAux : List (List Char) → Bool → Bool → Admonition → List Char → List Char
  | [], _, _, _, acc => acc
  | l :: rest, a, q, adm, acc =>
    let r := convertAdmonition l a q adm
    runCalloutAux rest r.2.1 r.2.2.1 r.2.2.2 (acc ++ r.1 ++ ['\n'])

/-- Feed input lines through the callout state machine, starting from the
idle state, accumulating `transformedContent`. -/
def runCalloutMachine (lines : List (List Char)) : List Char :=
  runCalloutAux lines false false ⟨[], [], 0⟩ []

/-! ### Standard-link path normalization (`checkForLinks`) -/

/-- Try to match `\[([^\]]+)\]\(([^)]+)\)` anchored at the head of `s`;
returns `(text, url)`. -/
def tryLinkAt : List Char → Option (List Char × List Char)
  | '[' :: rest =>
    let text := rest.takeWhile (· != ']')
    if text == [] then none
    else
      match rest.drop text.length with
      | ']' :: '(' :: r2 =>
        let url := r2.takeWhile (· != ')')
        if url == [] then none
        else
          match r2.drop url.length with
          | ')' :: _ => some (text, url)
          | _ => none
      | _ => none
  | _ => none

/-- Leftmost match of `\[([^\]]+)\]\(([^)]+)\)` (JS `match` without `/g`). -/
def linkMatch : List Char → Option (List Char × List Char)
  | [] => none
  | c :: rest =>
    match tryLinkAt (c :: rest) with
    | some r => some r
    | none => linkMatch rest

/-- `isBlogFolder`. -/
def isBlogFolder (mainFolder : List Char) : Bool :=
  mainFolder == "blog".data || isSuffix "__blog".data mainFolder

/-- `removeBlogSuffix` (JS `replace` removes the first `"__blog"`). -/
def removeBlogSuffix (mainFolder : List Char) : List Char :=
  replaceFirst mainFolder "__blog".data []

/-- Source name `removeNumberPrefix`: strip a leading run of digits followed
by `[\.\-\)\s%20]*\s*`, then trim. -/
def stripNumbering (s : List Char) : List Char :=
  let stripped :=
    if (s.takeWhile (·.isDigit)) == [] then s
    else
      (s.dropWhile (·.isDigit)).dropWhile
        (fun c => c == '.' || c == '-' || c == ')' || c == '%' || c == '2' || c == '0'
          || c.isWhitespace)
  trimL stripped

/-- `parentFolder.split("-").join("/")` — reinterpret hyphens as path
separators on blog slugs. -/
def joinDashSlash (s : List Char) : List Char :=
  s.map (fun c => if c == '-' then '/' else c)

/-- `processUrlParts`. -/
def processUrlParts (urlParts : List (List Char)) (isBlog : Bool) : List (List Char) :=
  let hashParts := splitOnChar '#' (urlParts.getLastD [])
  let file := hashParts.headD []
  let anchor : Option (List Char) := hashParts.get? 1
  let parentFolder := (urlParts.get? (urlParts.length - 2)).getD []
  let u1 :=
    if isSuffix ['+'] parentFolder then
      let pf := replaceFirst parentFolder ['+'] []
      setLast urlParts.dropLast (if isBlog then joinDashSlash pf else stripNumbering pf)
    else if isSuffix ".md".data file then
      setLast urlParts (replaceFirst file ".md".data [])
    else urlParts
  let u2 := if isBlog then setLast u1 (joinDashSlash (u1.getLastD [])) else u1
  let u3 := if isBlog then u2 else u2.map stripNumbering
  match anchor with
  | some a =>
    if a == [] then u3
    else setLast u3 (u3.getLastD [] ++ '#' :: (replacePct20 ['-'] a).map Char.toLower)
  | none => u3

/-- `checkForLinks`: normalize the URL of the first standard markdown link on
the line (external links and single-segment URLs pass through). -/
def checkForLinks (line : List Char) : List Char :=
  match linkMatch line with
  | none => line
  | some (_, url) =>
    if containsSub "http".data url then line
    else
      let urlParts := splitOnChar '/' url
      if urlParts.length ≤ 1 then line
      else
        let mainFolder := urlParts.headD []
        let isBlog := isBlogFolder mainFolder
        let urlParts1 :=
          if isBlog then removeBlogSuffix mainFolder :: urlParts.tail else urlParts
        let processed := processUrlParts urlParts1 isBlog
        replaceFirst line url ('/' :: List.intercalate "/".data processed)

/-! ### Asset registry (`getOrCreateSize`, `addToAssetJson`) -/

/-- Interface `Size`: one size variant of a logical attachment. -/
structure Size where
  size : List Char
  inDocuments : List (List Char)
  newName : List (List Char)
deriving DecidableEq

/-- Interface `Asset`: one logical attachment record.  `originalFileName` and
`fileExtension` may be `undefined` at the call sites, hence `Option`;
`dateModified` records the `new Date().toISOString()` stamp passed in as
`now`. -/
structure Asset where
  fileName : List Char
  originalFileName : Option (List Char)
  fileExtension : Option (List Char)
  dateModified : List Char
  sourcePathRelative : List Char
  sizes : List Size
deriving DecidableEq

/-- `getOrCreateSize`: find-or-create the size variant with this tag, adding
the referencing document when absent.  Returns the (possibly new or updated)
variant together with the updated `sizes` array (the JS code mutates the
found object in place). -/
def getOrCreateSize (sizes : List Size) (size processedFileName : List Char) :
    Size × List Size :=
  match findFirst (fun s => s.size == size) sizes with
  | none =>
    let ns : Size := ⟨size, [processedFileName], []⟩
    (ns, sizes ++ [ns])
  | some existingSize =>
    if includesB existingSize.inDocuments processedFileName then (existingSize, sizes)
    else
      ({ existingSize with inDocuments := existingSize.inDocuments ++ [processedFileName] },
        updateFirst (fun s => s.size == size)
          (fun s => { s with inDocuments := s.inDocuments ++ [processedFileName] }) sizes)

/-- `addToAssetJson`: throws when the source path is `undefined`; otherwise
find-or-create the asset record by canonical file name and register the size
variant inside it.  Returns the variant and the updated registry. -/
def addToAssetJson (assetJson : List Asset) (fileName : List Char)
    (fileNameWithExtension : Option (List Char)) (fileExtension : Option (List Char))
    (path : Option (List Char)) (size processedFileName now : List Char) :
    Except (List Char) (Size × List Asset) :=
  match path with
  | none => .error ("Could not find path for asset: ".data ++ fileName)
  | some p =>
    match findFirst (fun item => item.fileName == fileName) assetJson with
    | some existingAsset =>
      let r := getOrCreateSize existingAsset.sizes size processedFileName
      .ok (r.1,
        updateFirst (fun item => item.fileName == fileName)
          (fun item => { item with sizes := r.2 }) assetJson)
    | none =>
      let r := getOrCreateSize [] size processedFileName
      .ok (r.1,
        assetJson ++ [⟨fileName, fileNameWithExtension, fileExtension, now, p, r.2⟩])

/-! ### Asset discovery on a line (`checkForAssets` and its helpers) -/

/-- The image-extension allow-list of `checkForAssets`. -/
def imageExts : List (List Char) :=
  ["jpg".data, "png".data, "webp".data, "jpeg".data, "bmp".data, "gif".data,
   "svg".data, "excalidraw".data]

/-- The lazy `(?<path>.*?)\)` tail: the characters before the first `)`. -/
def pathUpToParen (s : List Char) : Option (List Char) :=
  if s.contains ')' then some (s.takeWhile (· != ')')) else none

/-- Parse the tail after a literal `![`: either `](path)` or
`|W]` / `|WxH]` followed by `(path)`; the size group is `\d+(x\d+)?`. -/
def parseAfterBracket (s : List Char) : Option (Option (List Char) × List Char) :=
  match s with
  | ']' :: '(' :: rest => (pathUpToParen rest).map (fun p => (none, p))
  | '|' :: rest =>
    let d1 := rest.takeWhile (·.isDigit)
    if d1 == [] then none
    else
      match rest.drop d1.length with
      | ']' :: '(' :: r2 => (pathUpToParen r2).map (fun p => (some d1, p))
      | 'x' :: r2 =>
        let d2 := r2.takeWhile (·.isDigit)
        if d2 == [] then none
        else
          match r2.drop d2.length with
          | ']' :: '(' :: r3 =>
            (pathUpToParen r3).map (fun p => (some (d1 ++ 'x' :: d2), p))
          | _ => none
      | _ => none
  | _ => none

/-- Leftmost match of `!\[(?:\|(?<size>\d+(x\d+)?))?\]\((?<path>.*?)\)`:
returns the `size` and `path` groups (the matched text itself is unused by
`checkForAssets`, which rebuilds the whole line). -/
def findAssetMatch : List Char → Option (Option (List Char) × List Char)
  | [] => none
  | '!' :: '[' :: rest =>
    match parseAfterBracket rest with
    | some r => some r
    | none => findAssetMatch ('[' :: rest)
  | _ :: rest => findAssetMatch rest

/-- Interpolation of a possibly-`undefined` JS value into a template string. -/
def jsOpt : Option (List Char) → List Char
  | none => "undefined".data
  | some s => s

/-- Space / `%20` normalization applied to asset base names. -/
def normalizeAssetName (s : List Char) : List Char :=
  replacePct20 ['_'] (s.map (fun c => if c == ' ' then '_' else c))

/-- `processImage`: rebuild the line as a canonical image embed and record the
produced output file name on the size variant (the JS code mutates the
variant in place; the updated variant is returned). -/
def processImage (cfg : Config) (_line fileName fileExtension size : List Char)
    (sizeObject : Size) : List Char × Size :=
  let sizeSuffix := if size == "standard".data then [] else '_' :: size
  let newPath :=
    if fileExtension == "gif".data || fileExtension == "svg".data then
      "/assets/".data ++ fileName ++ sizeSuffix ++ '.' :: fileExtension
    else if fileExtension == "excalidraw".data then
      "/assets/".data ++ fileName ++ sizeSuffix ++ ".excalidraw.light.svg#light".data
    else
      "/assets/".data ++ fileName ++ sizeSuffix ++ '.' :: cfg.convertedImageType
  let line1 :=
    if fileExtension == "gif".data || fileExtension == "svg".data
        || fileExtension == "excalidraw".data then
      let base := "![".data ++ fileName ++ "](".data ++ newPath ++ ")".data
      if fileExtension == "excalidraw".data then
        base ++ '\n' ::
          ("![".data ++ fileName ++ "](".data
            ++ replaceFirst newPath ".light.svg#light".data ".dark.svg#dark".data
            ++ ")".data)
      else base
    else "![".data ++ fileName ++ "](".data ++ newPath ++ ")".data
  let newName := (splitOnChar '#' ((splitOnChar '/' newPath).getLastD [])).headD []
  let sizeObject1 :=
    if newName != [] && !includesB sizeObject.newName newName then
      { sizeObject with newName := sizeObject.newName ++ [newName] }
    else sizeObject
  (line1, sizeObject1)

/-- `processAsset`: rebuild the line as a download link. -/
def processAsset (cfg : Config) (_line fileName : List Char)
    (fileExtension : Option (List Char)) : List Char :=
  "[Download ".data ++ fileName ++ '.' :: jsOpt fileExtension ++ "](".data
    ++ cfg.docusaurusAssetSubfolderName ++ '/' :: fileName ++ '.' :: jsOpt fileExtension
    ++ ")".data

/-- Write an updated size variant back into the registry at its place (the
variant object returned by `addToAssetJson` is aliased inside the registry in
the JS code, so mutating it mutates the first variant with this tag of the
first asset with this name). -/
def updateSizeInAssets (assets : List Asset) (fileName sizeTag : List Char)
    (newSize : Size) : List Asset :=
  updateFirst (fun a => a.fileName == fileName)
    (fun a => { a with sizes := updateFirst (fun v => v.size == sizeTag) (fun _ => newSize) a.sizes })
    assets

/-- Dispatch on the extension after registration: image extensions go through
`processImage` (whose variant mutation is written back), everything else
through `processAsset`. -/
def emitAssetLine (cfg : Config) (line fileName : List Char)
    (fileExtension : Option (List Char)) (size : List Char) (existingSize : Size)
    (assetJson : List Asset) : List Char × List Asset :=
  match fileExtension with
  | some ext =>
    if includesB imageExts ext then
      let r := processImage cfg line fileName ext size existingSize
      (r.1, updateSizeInAssets assetJson fileName size r.2)
    else (processAsset cfg line fileName (some ext), assetJson)
  | none => (processAsset cfg line fileName none, assetJson)

/-- `checkForAssets`: register and rewrite a standard-form embed
`![|size](path)` if present, then a wiki-form embed `[[name]]`; the second
registration throws when the name is absent from the attachment inventory. -/
def checkForAssets (cfg : Config) (now line processedFileName : List Char)
    (assetJson : List Asset) (allSourceAssetsInfo : List SourceFileInfo) :
    Except (List Char) (List Char × List Asset) :=
  let step1 : Except (List Char) (List Char × List Asset) :=
    match findAssetMatch line with
    | none => .ok (line, assetJson)
    | some (sizeGroup, path) =>
      let fileNameWithExtension := (splitOnChar '/' path).getLastD []
      let parts := splitOnChar '.' fileNameWithExtension
      let fileName := normalizeAssetName (parts.headD [])
      let fileExtension := parts.get? 1
      let size :=
        match sizeGroup with
        | none => "standard".data
        | some s => if trimL s == [] then "standard".data else s
      match addToAssetJson assetJson fileName (some fileNameWithExtension)
          fileExtension (some path) size processedFileName now with
      | .error e => .error e
      | .ok r => .ok (emitAssetLine cfg line fileName fileExtension size r.1 r.2)
  match step1 with
  | .error e => .error e
  | .ok (line1, assetJson1) =>
    match wikiMatch line1 with
    | none => .ok (line1, assetJson1)
    | some (_, filenameWithExtension) =>
      let parts := splitOnChar '.' filenameWithExtension
      let fileName := normalizeAssetName (parts.headD [])
      let fileExtension := parts.get? 1
      let size := "standard".data
      let path :=
        (findFirst (fun item => item.fileName == filenameWithExtension)
          allSourceAssetsInfo).map (·.pathSourceRelative)
      match addToAssetJson assetJson1 fileName (some filenameWithExtension)
          fileExtension path size processedFileName now with
      | .error e => .error e
      | .ok r => .ok (emitAssetLine cfg line1 fileName fileExtension size r.1 r.2)

/-! ### The per-document line loop (`processMarkdown`) -/

/-- The body of the `for await (const line of rl)` loop, iterated over the
remaining lines with the admonition state and the accumulated content. -/
def processMarkdownGo (cfg : Config) (now processedFileName : List Char)
    (fileProcessor : FileProcessor) (allSourceAssetsInfo : List SourceFileInfo) :
    List (List Char) → List Asset → Bool → Bool → Admonition → List Char →
    Except (List Char) (List Char × List Asset)
  | [], assetJson, _, _, _, acc => .ok (acc, assetJson)
  | line :: rest, assetJson, inAdmonition, inQuote, admonition, acc =>
    let p1 := convertObsidianLinks line fileProcessor
    match checkForAssets cfg now p1 processedFileName assetJson allSourceAssetsInfo with
    | .error e => .error e
    | .ok (p2, assetJson1) =>
      let p3 := checkForLinks p2
      let r := convertAdmonition p3 inAdmonition inQuote admonition
      processMarkdownGo cfg now processedFileName fileProcessor allSourceAssetsInfo
        rest assetJson1 r.2.1 r.2.2.1 r.2.2.2 (acc ++ r.1 ++ ['\n'])

/-- `processMarkdown`: transform a document given as its list of lines,
returning the transformed content and the updated asset registry, or the
first thrown error. -/
def processMarkdown (cfg : Config) (now processedFileName : List Char)
    (sourceLines : List (List Char)) (assetJson : List Asset)
    (fileInfo allSourceAssetsInfo : List SourceFileInfo) :
    Except (List Char) (List Char × List Asset) :=
  processMarkdownGo cfg now processedFileName ⟨fileInfo, allSourceAssetsInfo⟩
    allSourceAssetsInfo sourceLines assetJson false false ⟨[], [], 0⟩ []

/-! ### Helper lemmas on the list combinators -/

theorem findFirst_append_none (p : α → Bool) (l1 l2 : List α)
    (h : findFirst p l1 = none) : findFirst p (l1 ++ l2) = findFirst p l2 := by
  induction l1 with
  | nil => rfl
  | cons x xs ih =>
    simp only [findFirst, List.cons_append] at h ⊢
    by_cases hx : p x
    · simp [hx] at h
    · simp only [hx, if_false] at h ⊢
      exact ih h

theorem findFirst_updateFirst (p : α → Bool) (f : α → α) (l : List α)
    (hf : ∀ a, p a = true → p (f a) = true) :
    findFirst p (updateFirst p f l) = (findFirst p l).map f := by
  induction l with
  | nil => rfl
  | cons x xs ih =>
    by_cases hx : p x
    · simp [updateFirst, findFirst, hx, hf x hx]
    · simp [updateFirst, findFirst, hx, ih]

theorem updateFirst_self (p : α → Bool) (f : α → α) (l : List α) (a : α)
    (h : findFirst p l = some a) (hfa : f a = a) : updateFirst p f l = l := by
  induction l with
  | nil => simp [findFirst] at h
  | cons x xs ih =>
    by_cases hx : p x
    · simp only [findFirst, hx, if_true, Option.some.injEq] at h
      subst h
      simp [updateFirst, hx, hfa]
    · simp only [findFirst, hx, if_false] at h
      simp [updateFirst, hx, ih h]

theorem updateFirst_append_none (p : α → Bool) (f : α → α) (l1 l2 : List α)
    (h : findFirst p l1 = none) :
    updateFirst p f (l1 ++ l2) = l1 ++ updateFirst p f l2 := by
  induction l1 with
  | nil => rfl
  | cons x xs ih =>
    simp only [findFirst] at h
    by_cases hx : p x
    · simp [hx] at h
    · simp only [hx, if_false] at h
      simp [updateFirst, hx, ih h]

theorem filter_nil_of_findFirst_none (p : α → Bool) (l : List α)
    (h : findFirst p l = none) : l.filter p = [] := by
  induction l with
  | nil => rfl
  | cons x xs ih =>
    simp only [findFirst] at h
    by_cases hx : p x
    · simp [hx] at h
    · simp only [hx, if_false] at h
      simp [List.filter, hx, ih h]

theorem includesB_append_self [BEq α] [LawfulBEq α] (l : List α) (a : α) :
    includesB (l ++ [a]) a = true := by
  induction l with
  | nil => simp [includesB]
  | cons x xs ih => simp [includesB, ih]

theorem mem_eraseFirst_of_ne [BEq α] [LawfulBEq α] (a x : α) (l : List α)
    (hx : x ∈ l) (hne : x ≠ a) : x ∈ eraseFirst a l := by
  induction l with
  | nil => simp at hx
  | cons y ys ih =>
    cases hy : y == a with
    | true =>
      rcases List.mem_cons.mp hx with rfl | h2
      · exact absurd (eq_of_beq hy) hne
      · simpa [eraseFirst, hy] using h2
    | false =>
      rcases List.mem_cons.mp hx with rfl | h2
      · simp [eraseFirst, hy]
      · simp [eraseFirst, hy, List.mem_cons, ih h2]

theorem eq_of_not_mem_eraseFirst [BEq α] [LawfulBEq α] (a x : α) (l : List α)
    (hx : x ∈ l) (hne : x ∉ eraseFirst a l) : x = a := by
  induction l with
  | nil => simp at hx
  | cons y ys ih =>
    cases hy : y == a with
    | true =>
      rcases List.mem_cons.mp hx with rfl | h2
      · exact eq_of_beq hy
      · refine absurd h2 ?_
        simpa [eraseFirst, hy] using hne
    | false =>
      simp only [eraseFirst, hy, Bool.false_eq_true, if_false, List.mem_cons, not_or] at hne
      rcases List.mem_cons.mp hx with rfl | h2
      · exact absurd rfl hne.1
      · exact ih h2 hne.2

theorem getOrCreateSize_spec (sizes : List Size) (size doc : List Char) :
    findFirst (fun v => v.size == size) (getOrCreateSize sizes size doc).2
      = some (getOrCreateSize sizes size doc).1 ∧
    includesB (getOrCreateSize sizes size doc).1.inDocuments doc = true := by
  unfold getOrCreateSize
  cases hf : findFirst (fun v => v.size == size) sizes with
  | none =>
    constructor
    · rw [findFirst_append_none _ _ _ hf]
      simp [findFirst]
    · simp [includesB]
  | some ex =>
    by_cases hd : includesB ex.inDocuments doc
    · simp [hd, hf]
    · simp only [hd, if_false, Bool.false_eq_true]
      constructor
      · rw [findFirst_updateFirst]
        · rw [hf]; rfl
        · intro a ha; simpa using ha
      · exact includesB_append_self _ _

theorem addToAssetJson_found (assetJson : List Asset) (fileName : List Char)
    (fne fe : Option (List Char)) (p : List Char) (size doc now : List Char)
    (s : Size) (reg' : List Asset)
    (h : addToAssetJson assetJson fileName fne fe (some p) size doc now = .ok (s, reg')) :
    ∃ A : Asset, findFirst (fun a => a.fileName == fileName) reg' = some A ∧
      findFirst (fun v => v.size == size) A.sizes = some s ∧
      includesB s.inDocuments doc = true := by
  unfold addToAssetJson at h
  cases hf : findFirst (fun item => item.fileName == fileName) assetJson with
  | some A0 =>
    rw [hf] at h
    simp only [Except.ok.injEq, Prod.mk.injEq] at h
    obtain ⟨hs, hr⟩ := h
    obtain ⟨hfind, hdoc⟩ := getOrCreateSize_spec A0.sizes size doc
    refine ⟨{ A0 with sizes := (getOrCreateSize A0.sizes size doc).2 }, ?_, ?_, ?_⟩
    · rw [← hr, findFirst_updateFirst, hf]
      · rfl
      · intro a ha; simpa using ha
    · rw [hs] at hfind; exact hfind
    · rw [hs] at hdoc; exact hdoc
  | none =>
    rw [hf] at h
    simp only [Except.ok.injEq, Prod.mk.injEq] at h
    obtain ⟨hs, hr⟩ := h
    obtain ⟨hfind, hdoc⟩ := getOrCreateSize_spec [] size doc
    refine ⟨⟨fileName, fne, fe, now, p, (getOrCreateSize [] size doc).2⟩, ?_, ?_, ?_⟩
    · rw [← hr, findFirst_append_none _ _ _ hf]
      simp [findFirst]
    · rw [hs] at hfind; exact hfind
    · rw [hs] at hdoc; exact hdoc

theorem runAll_error (convertF : α → Except String Unit) (files : List α)
    (f : α) (m : String) (hmem : f ∈ files) (hf : convertF f = .error m) :
    ∃ m2, runAll convertF files = .error m2 := by
  induction files with
  | nil => simp at hmem
  | cons g gs ih =>
    cases hg : convertF g with
    | error e => exact ⟨e, by simp [runAll, hg]⟩
    | ok u =>
      rcases List.mem_cons.mp hmem with rfl | h2
      · rw [hf] at hg; cases hg
      · obtain ⟨m2, hm2⟩ := ih h2
        exact ⟨m2, by simp [runAll, hg, hm2]⟩

/-! ### Claim theorems -/

/-- C1: For a target record whose ledger entry matches a source present in
the current source inventory, Pass A (`checkTargetFiles` body) deletes the
target and splices out the ledger entry exactly when the source's
modification time is strictly greater than the target's; at equal timestamps
the target is neither deleted in Pass A nor scheduled for reconversion in
Pass B (`checkSourceFiles` body), and the `getFilesToDelete` variant likewise
deletes exactly on a strictly newer source. -/
theorem c1_strict_newer_reconciliation
    (t : MarkdownFile) (sources : List MarkdownFile) (entries : List MdConversionEntry)
    (i : Nat) (e : MdConversionEntry) (j : Nat) (s : MarkdownFile)
    (s2 : MarkdownSourceFile) (targets2 : List MarkdownFile)
    (entries2 : List MdConversionEntry) (i2 : Nat) (e2 : MdConversionEntry)
    (j2 : Nat) (t2 : MarkdownFile) (src3 : List FileInfo) (tf3 s3 : FileInfo)
    (h1 : findWithIdx (fun entry => t.absolutepath == entry.targetPath) entries = some (i, e))
    (h2 : findWithIdx (fun sourceFile => sourceFile.absolutepath == e.sourcePath) sources = some (j, s))
    (h3 : findWithIdx (fun entry => entry.sourcePath == s2.absolutepath) entries2 = some (i2, e2))
    (h4 : findWithIdx (fun targetFile => targetFile.absolutepath == e2.targetPath) targets2 = some (j2, t2))
    (h5 : findFirst (fun file => file.pathSourceRelative == tf3.pathSourceRelative) src3 = some s3) :
    ((checkTargetStep t sources entries).1 = true ↔ s.dateModified > t.dateModified) ∧
    (s.dateModified > t.dateModified →
      checkTargetStep t sources entries = (true, entries.eraseIdx i)) ∧
    (s.dateModified ≤ t.dateModified →
      checkTargetStep t sources entries = (false, entries)) ∧
    (s2.dateModified = t2.dateModified →
      checkSourceStep s2 targets2 entries2 = false) ∧
    (getFilesToDeleteStep src3 tf3 = true ↔ tf3.dateModified < s3.dateModified) := by
  unfold checkTargetStep checkSourceStep getFilesToDeleteStep
  rw [h1]; dsimp only
  rw [h2]; dsimp only
  rw [h3]; dsimp only
  rw [h4]; dsimp only
  rw [h5]; dsimp only
  refine ⟨?_, ?_, ?_, ?_, ?_⟩
  · by_cases hlt : s.dateModified > t.dateModified
    · simp [hlt]
    · simp [hlt]
  · intro hlt; simp [hlt]
  · intro hle; simp [not_lt.mpr hle]
  · intro heq; simp [heq]
  · by_cases hlt : tf3.dateModified < s3.dateModified
    · simp [hlt]
    · simp [hlt]

/-- Witness for C1 at concrete files: entry `(S, T)`, source `S` one tick
newer than target `T` (deleted, entry dropped), and equal-stamp pairs that
are left alone in both passes. -/
theorem c1_witness :
    checkTargetStep ⟨"T", 5⟩ [⟨"S", 6⟩] [⟨"S", "T"⟩] = (true, []) ∧
    checkTargetStep ⟨"T", 5⟩ [⟨"S", 5⟩] [⟨"S", "T"⟩] = (false, [⟨"S", "T"⟩]) ∧
    checkSourceStep ⟨"S", 5, "T"⟩ [⟨"T", 5⟩] [⟨"S", "T"⟩] = false ∧
    getFilesToDeleteStep [⟨"a", 5⟩] ⟨"a", 5⟩ = false := by
  have r1 := c1_strict_newer_reconciliation ⟨"T", 5⟩ [⟨"S", 6⟩] [⟨"S", "T"⟩] 0 ⟨"S", "T"⟩
    0 ⟨"S", 6⟩ ⟨"S", 5, "T"⟩ [⟨"T", 5⟩] [⟨"S", "T"⟩] 0 ⟨"S", "T"⟩ 0 ⟨"T", 5⟩
    [⟨"a", 5⟩] ⟨"a", 5⟩ ⟨"a", 5⟩ (by decide) (by decide) (by decide) (by decide) (by decide)
  have r2 := c1_strict_newer_reconciliation ⟨"T", 5⟩ [⟨"S", 5⟩] [⟨"S", "T"⟩] 0 ⟨"S", "T"⟩
    0 ⟨"S", 5⟩ ⟨"S", 5, "T"⟩ [⟨"T", 5⟩] [⟨"S", "T"⟩] 0 ⟨"S", "T"⟩ 0 ⟨"T", 5⟩
    [⟨"a", 5⟩] ⟨"a", 5⟩ ⟨"a", 5⟩ (by decide) (by decide) (by decide) (by decide) (by decide)
  refine ⟨r1.2.1 (by decide), r2.2.2.1 (by decide), r2.2.2.2.1 rfl, ?_⟩
  have := r2.2.2.2.2
  by_cases hb : getFilesToDeleteStep [⟨"a", 5⟩] ⟨"a", 5⟩ = true
  · exact absurd (this.mp hb) (by decide)
  · simpa using hb

/-- C2: A failing per-file conversion makes `convertAndLog` rethrow before
the ledger push, aborting `checkSourceFiles` for the whole run (no later file
is processed and no entry for the failing file is appended); likewise
`copyMarkdownFilesToTarget` rejects without pushing anything onto the ledger
when any scheduled file's conversion fails. -/
theorem c2_conversion_failure_aborts
    (convert : MarkdownSourceFile → Except String Unit) (s : MarkdownSourceFile)
    (rest : List MarkdownSourceFile) (targets : List MarkdownFile)
    (entries : List MdConversionEntry) (msg : String)
    (hstep : checkSourceStep s targets entries = true)
    (hfail : convert s = Except.error msg) :
    checkSourceFiles convert (s :: rest) targets entries = Except.error "" ∧
    convertAndLog (convert s) s entries "" = Except.error "" ∧
    (∀ (β : Type) (convertF : β → Except String Unit) (files tj : List β) (f : β) (m : String),
       f ∈ files → convertF f = Except.error m →
       ∃ m2, copyMarkdownFilesToTarget convertF files tj = Except.error m2) := by
  refine ⟨?_, ?_, ?_⟩
  · unfold checkSourceFiles
    rw [hstep]
    simp [convertAndLog, hfail]
  · simp [convertAndLog, hfail]
  · intro β convertF files tj f m hmem hf
    obtain ⟨m2, hm2⟩ := runAll_error convertF files f m hmem hf
    exact ⟨m2, by simp [copyMarkdownFilesToTarget, hm2]⟩

/-- Witness for C2: a single source file whose conversion throws. -/
theorem c2_witness :
    checkSourceFiles (fun _ => Except.error "boom") [⟨"S", 1, "T"⟩] [] [] = Except.error "" ∧
    (∃ m2, copyMarkdownFilesToTarget (fun _ : Nat => Except.error "boom") [7] [] = Except.error m2) := by
  have r := c2_conversion_failure_aborts (fun _ => Except.error "boom") ⟨"S", 1, "T"⟩ [] [] []
    "boom" (by decide) rfl
  exact ⟨r.1, r.2.2 Nat _ [7] [] 7 "boom" (by simp) rfl⟩

/-- C3 counterexample: in the `MarkdownFileHandler` variant, `startConversion`
saves the ledger snapshot and then immediately calls `resetDatabase`, which
unlinks the same data file — after the run the ledger document is gone and
the next run's `loadMdFilesFromJson` yields the empty ledger (here even with
a parser that would decode a non-empty snapshot), so the written snapshot
does not remain available to drive the next run's reconciliation. -/
theorem c3_counterexample :
    startConversionPersist "data.json" "[]" (fun _ => none) "data.json" = none ∧
    loadMdFilesFromJson "data.json" (startConversionPersist "data.json" "[]" (fun _ => none))
      (fun _ => [⟨"S", "T"⟩]) = [] := ⟨rfl, rfl⟩

/-- C3 amended: the `obsidiosaurusProcess` variant does write both the ledger
document (`allFilesInfo.json`) and the asset-registry document
(`assetInfo.json`) as whole-list snapshots that remain on disk at the end of
a successful run; but in the `MarkdownFileHandler` variant the ledger
snapshot written by `saveMdFilesToJson` is deleted again by `resetDatabase`
before the run ends, so there the next run always starts from the empty
ledger. -/
theorem c3_persistence_amended :
    (∀ (fs : FsState) (tj aj : String),
       obsidiosaurusPersist tj aj fs "allFilesInfo.json" = some tj ∧
       obsidiosaurusPersist tj aj fs "assetInfo.json" = some aj) ∧
    (∀ (fs : FsState) (d j : String), startConversionPersist d j fs d = none) ∧
    (∀ (fs : FsState) (d j : String) (parse : String → List MdConversionEntry),
       loadMdFilesFromJson d (startConversionPersist d j fs) parse = []) := by
  refine ⟨fun fs tj aj => ⟨rfl, rfl⟩, ?_, ?_⟩
  · intro fs d j
    simp [startConversionPersist, resetDatabase, saveMdFilesToJson, fsWrite, fsDelete]
  · intro fs d j parse
    simp [loadMdFilesFromJson, startConversionPersist, resetDatabase, saveMdFilesToJson,
      fsWrite, fsDelete]

/-- C9 counterexample: `deleteParentDirectories` has no tree-root stop — its
walk only ends at the filesystem root or at a failing `rmdir`.  With the
output tree rooted at `site` holding only `site/docs/a.md`, deleting that
file and pruning removes `site/docs` and then the tree root `site` itself. -/
theorem c9_counterexample :
    ["site"] ∈ (Fs.mk [["site"], ["site", "docs"]] []).dirs ∧
    ["site"] ∉ (deleteParentDirectories ⟨[["site"], ["site", "docs"]], []⟩
      ["site", "docs", "a.md"]).dirs := by decide

theorem deleteParentDirsWalk_removed (fuel : Nat) :
    ∀ (fs : Fs) (dirPath x : List String), x ∈ fs.dirs →
      x ∉ (deleteParentDirsWalk fuel fs dirPath).dirs →
      x ≠ [] ∧ ∃ t, x ++ t = dirPath := by
  induction fuel with
  | zero => intro fs dirPath x hx hnx; exact absurd hx hnx
  | succ n ih =>
    intro fs dirPath x hx hnx
    by_cases hd : dirPath = []
    · simp only [deleteParentDirsWalk, hd, if_true] at hnx
      exact absurd hx hnx
    · simp only [deleteParentDirsWalk, hd, if_false] at hnx
      cases hr : rmdirTry fs dirPath with
      | none => rw [hr] at hnx; exact absurd hx hnx
      | some fs1 =>
        rw [hr] at hnx
        have hfs1 : fs1 = { fs with dirs := eraseFirst dirPath fs.dirs } := by
          unfold rmdirTry at hr
          by_cases h1 : dirNonEmpty fs dirPath = true
          · rw [if_pos h1] at hr; cases hr
          · rw [if_neg h1] at hr
            by_cases h2 : includesB fs.dirs dirPath = true
            · rw [if_pos h2] at hr; exact (Option.some.inj hr).symm
            · rw [if_neg h2] at hr; cases hr
        by_cases hx1 : x ∈ fs1.dirs
        · obtain ⟨hne, t, ht⟩ := ih fs1 dirPath.dropLast x hx1 hnx
          refine ⟨hne, t ++ [dirPath.getLast hd], ?_⟩
          rw [← List.append_assoc, ht, List.dropLast_append_getLast hd]
        · have hxd : x = dirPath := by
            apply eq_of_not_mem_eraseFirst dirPath x fs.dirs hx
            rw [hfs1] at hx1
            exact hx1
          subst hxd
          exact ⟨hd, [], by simp⟩

theorem deleteParentDirsWalk_stop (fuel : Nat) (fs : Fs) (d : List String)
    (h : rmdirTry fs d = none) : deleteParentDirsWalk fuel fs d = fs := by
  cases fuel with
  | zero => rfl
  | succ n =>
    by_cases hd : d = []
    · simp [deleteParentDirsWalk, hd]
    · simp [deleteParentDirsWalk, hd, h]

theorem removeEmpty_keeps_short (fuel : Nat) :
    ∀ (fs : Fs) (d src x : List String), x ∈ fs.dirs → x.length ≤ d.length →
      x ∈ (removeEmptyDirectories fuel fs d src).dirs := by
  induction fuel with
  | zero => intro fs d src x hx _; exact hx
  | succ n ih =>
    intro fs d src x hx hlen
    simp only [removeEmptyDirectories]
    have main : ∀ (cs : List (List String)), (∀ c ∈ cs, c.length = d.length + 1) →
        ∀ fsa, x ∈ fsa.dirs →
        x ∈ (cs.foldl (fun fs1 dir =>
              let fs2 := removeEmptyDirectories n fs1 dir src
              if !dirNonEmpty fs2 dir && d ≠ src then
                { fs2 with dirs := eraseFirst dir fs2.dirs }
              else fs2) fsa).dirs := by
      intro cs
      induction cs with
      | nil => intro _ fsa hxa; exact hxa
      | cons c cs2 ih2 =>
        intro hcl fsa hxa
        have hc : c.length = d.length + 1 := hcl c (List.mem_cons_self c cs2)
        have hx2 : x ∈ (removeEmptyDirectories n fsa c src).dirs :=
          ih fsa c src x hxa (by omega)
        have hne : x ≠ c := by
          intro hcc
          rw [hcc] at hlen
          omega
        refine ih2 (fun c2 hc2 => hcl c2 (List.mem_cons_of_mem c hc2)) _ ?_
        by_cases hb : (!dirNonEmpty (removeEmptyDirectories n fsa c src) c
            && decide (d ≠ src)) = true
        · simp only [hb, if_true]
          exact mem_eraseFirst_of_ne c x _ hx2 hne
        · simp only [hb, if_false]
          exact hx2
    refine main (childDirs fs d) ?_ fs hx
    intro c hc
    simp only [childDirs, List.mem_filter, Bool.and_eq_true, beq_iff_eq] at hc
    exact hc.2.1

/-- C9 amended: `deleteParentDirectories` walks upward removing only proper
ancestors of the deleted file's directory and never the filesystem root, and
a failing `rmdir` (non-empty or missing directory) ends the walk with the
state unchanged rather than as an error; but its only stops are the
filesystem root and a failing `rmdir` — there is no target-tree-root stop, so
it can remove the tree root itself when that root has become empty (see the
counterexample).  The class variant `removeEmptyDirectories` never removes
the directory it is invoked on. -/
theorem c9_parent_dir_walk_amended :
    (∀ (fs : Fs) (filepath x : List String), x ∈ fs.dirs →
       x ∉ (deleteParentDirectories fs filepath).dirs →
       x ≠ [] ∧ ∃ t, x ++ t = filepath.dropLast) ∧
    (∀ (fuel : Nat) (fs : Fs) (d : List String), rmdirTry fs d = none →
       deleteParentDirsWalk fuel fs d = fs) ∧
    (∀ (fuel : Nat) (fs : Fs) (d src : List String), d ∈ fs.dirs →
       d ∈ (removeEmptyDirectories fuel fs d src).dirs) := by
  refine ⟨?_, deleteParentDirsWalk_stop, ?_⟩
  · intro fs filepath x hx hnx
    exact deleteParentDirsWalk_removed filepath.length fs filepath.dropLast x hx hnx
  · intro fuel fs d src hd
    exact removeEmpty_keeps_short fuel fs d src d hd (Nat.le_refl _)

/-- Witness for C9 amended, at the counterexample tree: the directory removed
besides `site/docs` is an ancestor of `site/docs` (namely `site` itself, not
the filesystem root); a non-empty directory stops the walk unchanged; and
`removeEmptyDirectories` keeps its root. -/
theorem c9_witness :
    (["site"] ≠ [] ∧ ∃ t, ["site"] ++ t = ["site", "docs", "a.md"].dropLast) ∧
    deleteParentDirsWalk 2 ⟨[["r"], ["r", "a"]], [["r", "a", "f"]]⟩ ["r", "a"]
      = ⟨[["r"], ["r", "a"]], [["r", "a", "f"]]⟩ ∧
    ["r"] ∈ (removeEmptyDirectories 2 ⟨[["r"]], []⟩ ["r"] ["src"]).dirs := by
  refine ⟨?_, ?_, ?_⟩
  · exact c9_parent_dir_walk_amended.1 ⟨[["site"], ["site", "docs"]], []⟩
      ["site", "docs", "a.md"] ["site"] (by decide) (by decide)
  · exact c9_parent_dir_walk_amended.2.1 2 ⟨[["r"], ["r", "a"]], [["r", "a", "f"]]⟩
      ["r", "a"] (by decide)
  · exact c9_parent_dir_walk_amended.2.2 2 ⟨[["r"]], []⟩ ["r"] ["src"] (by decide)

/-- C5: Rewriting `[[Note A|See This]]` when the document lookup resolves
the derived file name `Note A.md` (the portion before `|` with `.md`
appended, since it carries no `.md` extension) to the target-relative path
`guides/a` yields `[See This](guides/a)` — the portion after `|` becomes the
display title and the emitted path is the resolved one, for any inventory
whose lookup so resolves. -/
theorem c5_wiki_link_roundtrip (fp : FileProcessor)
    (h : fp.getPathOfFile "Note A.md".data = some "guides/a".data) :
    convertObsidianLinks "[[Note A|See This]]".data fp = "[See This](guides/a)".data := by
  show (match fp.getPathOfFile "Note A.md".data with
        | some newPath =>
          replaceFirst "[[Note A|See This]]".data "[[Note A|See This]]".data
            ('[' :: "See This".data ++ "](".data ++ newPath ++ ")".data)
        | none =>
          match fp.getPathOfImage "Note A|See This".data with
          | some newPath =>
            replaceFirst "[[Note A|See This]]".data "[[Note A|See This]]".data
              ("![](".data ++ newPath ++ ")".data)
          | none => "[[Note A|See This]]".data) = "[See This](guides/a)".data
  rw [h]
  rfl

/-- Witness for C5: the one-record inventory resolving `Note A.md`. -/
theorem c5_witness :
    convertObsidianLinks "[[Note A|See This]]".data
      ⟨[⟨"Note A.md".data, "guides/a".data⟩], []⟩ = "[See This](guides/a)".data :=
  c5_wiki_link_roundtrip ⟨[⟨"Note A.md".data, "guides/a".data⟩], []⟩ rfl

/-- C6: `[x](02-guide/03-intro.md)` in a non-blog context normalizes to
`[x](/guide/intro)`: the numeric ordering prefixes are stripped from both
segments by `removeNumberPrefix` (here `stripNumbering`), the trailing `.md`
is dropped from the final segment, and the rebuilt URL is rooted with a
leading `/`. -/
theorem c6_path_normalization :
    checkForLinks "[x](02-guide/03-intro.md)".data = "[x](/guide/intro)".data ∧
    stripNumbering "02-guide".data = "guide".data ∧
    stripNumbering "03-intro".data = "intro".data := ⟨rfl, rfl, rfl⟩

/-- C7 counterexample: the callout machine run on the three claimed input
lines does not produce the claimed `:::warning Careful\nbody text\n:::\n` —
the start and end markers are emitted with a trailing newline of their own on
top of the per-line newline appended by the loop. -/
theorem c7_counterexample :
    runCalloutMachine ["> [!warning] Careful".data, "> body text".data, "".data]
      ≠ ":::warning Careful\nbody text\n:::\n".data := by decide

/-- C7 amended: the three lines produce
`:::warning Careful\n\nbody text\n:::\n\n`: the start marker opens the block
and emits the `:::warning Careful` fence with its own trailing newline (the
per-line append then leaves a blank line), the body line has the recorded
two-column offset stripped, and the blank input line closes the block with
`:::` plus its own newline and the per-line newline.  The same output comes
out of the full `processMarkdown` pipeline. -/
theorem c7_callout_amended :
    runCalloutMachine ["> [!warning] Careful".data, "> body text".data, "".data]
      = ":::warning Careful\n\nbody text\n:::\n\n".data ∧
    processMarkdown ⟨"webp".data, "assets".data⟩ "T".data "doc.md".data
        ["> [!warning] Careful".data, "> body text".data, "".data] [] [] []
      = Except.ok (":::warning Careful\n\nbody text\n:::\n\n".data, []) := ⟨rfl, rfl⟩

theorem replaceFirst_cases [BEq α] (s pat r : List α) :
    replaceFirst s pat r = s ∨
    ∃ j, findSub pat s = some j ∧
      replaceFirst s pat r = s.take j ++ r ++ s.drop (j + pat.length) := by
  unfold replaceFirst
  cases hj : findSub pat s with
  | none => left; rfl
  | some j => right; exact ⟨j, rfl, rfl⟩

/-- C10: A single pass of each line rewriter touches at most one region of
the line — the first occurrence of the first match's URL (for `[text](url)`)
or of the first wiki reference's matched text (for `[[...]]`): the output is
either the unchanged line or the line with exactly that region replaced, so
everything after it — in particular every later link or wiki reference on the
same line — is character-for-character unchanged.  The two concrete two-link
lines show the first occurrence rewritten and the second untouched. -/
theorem c10_first_occurrence_only :
    (∀ (line t u : List Char), linkMatch line = some (t, u) →
       checkForLinks line = line ∨
       ∃ j r, findSub u line = some j ∧
         checkForLinks line = line.take j ++ r ++ line.drop (j + u.length)) ∧
    (∀ (line : List Char) (fp : FileProcessor) (m0 c : List Char),
       wikiMatch line = some (m0, c) →
       convertObsidianLinks line fp = line ∨
       ∃ j r, findSub m0 line = some j ∧
         convertObsidianLinks line fp = line.take j ++ r ++ line.drop (j + m0.length)) ∧
    checkForLinks "[x](a/b) [y](02-c/d.md)".data = "[x](/a/b) [y](02-c/d.md)".data ∧
    convertObsidianLinks "[[A]] and [[B]]".data ⟨[⟨"A.md".data, "pa".data⟩], []⟩
      = "[A](pa) and [[B]]".data := by
  refine ⟨?_, ?_, rfl, rfl⟩
  · intro line t u hm
    unfold checkForLinks
    rw [hm]
    dsimp only
    by_cases h1 : containsSub "http".data u = true
    · rw [if_pos h1]; left; rfl
    · rw [if_neg h1]
      by_cases h2 : (splitOnChar '/' u).length ≤ 1
      · rw [if_pos h2]; left; rfl
      · rw [if_neg h2]
        rcases replaceFirst_cases line u
          ('/' :: List.intercalate "/".data
            (processUrlParts
              (if isBlogFolder ((splitOnChar '/' u).headD []) = true then
                removeBlogSuffix ((splitOnChar '/' u).headD []) :: (splitOnChar '/' u).tail
              else splitOnChar '/' u)
              (isBlogFolder ((splitOnChar '/' u).headD [])))) with h | ⟨j, hj, he⟩
        · left; exact h
        · right; exact ⟨j, _, hj, he⟩
  · intro line fp m0 c hw
    unfold convertObsidianLinks
    rw [hw]
    dsimp only
    cases hE1 : fp.getPathOfFile
        (if isSuffix ".md".data ((splitOnChar '|' c).headD []) = true then
          (splitOnChar '|' c).headD []
        else (splitOnChar '|' c).headD [] ++ ".md".data) with
    | some np =>
      rcases replaceFirst_cases line m0
        ('[' :: (splitOnChar '|' c).getLastD [] ++ "](".data ++ np ++ ")".data) with h | ⟨j, hj, he⟩
      · left; exact h
      · right; exact ⟨j, _, hj, he⟩
    | none =>
      cases hE2 : fp.getPathOfImage c with
      | some np =>
        rcases replaceFirst_cases line m0 ("![](".data ++ np ++ ")".data) with h | ⟨j, hj, he⟩
        · left; exact h
        · right; exact ⟨j, _, hj, he⟩
      | none => left; rfl

/-- Witness for C10: the general conjuncts instantiated at the two-link
lines. -/
theorem c10_witness :
    (checkForLinks "[x](a/b) [y](02-c/d.md)".data = "[x](a/b) [y](02-c/d.md)".data ∨
     ∃ j r, findSub "a/b".data "[x](a/b) [y](02-c/d.md)".data = some j ∧
       checkForLinks "[x](a/b) [y](02-c/d.md)".data
         = "[x](a/b) [y](02-c/d.md)".data.take j ++ r
           ++ "[x](a/b) [y](02-c/d.md)".data.drop (j + "a/b".data.length)) ∧
    (convertObsidianLinks "[[A]] and [[B]]".data ⟨[⟨"A.md".data, "pa".data⟩], []⟩
       = "[[A]] and [[B]]".data ∨
     ∃ j r, findSub "[[A]]".data "[[A]] and [[B]]".data = some j ∧
       convertObsidianLinks "[[A]] and [[B]]".data ⟨[⟨"A.md".data, "pa".data⟩], []⟩
         = "[[A]] and [[B]]".data.take j ++ r
           ++ "[[A]] and [[B]]".data.drop (j + "[[A]]".data.length)) :=
  ⟨c10_first_occurrence_only.1 "[x](a/b) [y](02-c/d.md)".data "x".data "a/b".data (by decide),
   c10_first_occurrence_only.2.1 "[[A]] and [[B]]".data ⟨[⟨"A.md".data, "pa".data⟩], []⟩
     "[[A]]".data "A".data (by decide)⟩

/-- C4 counterexample: for the line `[[ghost]]`, whose target resolves
neither to a known document nor to a known attachment, `convertObsidianLinks`
does pass the line through unchanged, but the subsequent `checkForAssets`
scan hands the unresolved inventory lookup to `addToAssetJson`, which throws
— so the conversion of the containing document errors instead of succeeding,
refuting "an unresolved reference never aborts the run". -/
theorem c4_counterexample :
    processMarkdown ⟨"webp".data, "assets".data⟩ "T".data "doc.md".data
        ["[[ghost]]".data] [] [] []
      = Except.error "Could not find path for asset: ghost".data ∧
    convertObsidianLinks "[[ghost]]".data ⟨[], []⟩ = "[[ghost]]".data := ⟨rfl, rfl⟩

/-- C4 amended: an unresolved wiki reference passes through
`convertObsidianLinks` unchanged (never a failure there), but when the same
line reaches `checkForAssets` and the reference is also absent from the
attachment inventory, the `addToAssetJson` registration throws
(`Could not find path for asset`), aborting the conversion of the containing
document; only standard-form embeds `![|size](path)`, whose source path is
taken from the line itself, are registered best-effort without aborting. -/
theorem c4_unresolved_reference_amended :
    (∀ line : List Char, convertObsidianLinks line ⟨[], []⟩ = line) ∧
    (∀ (cfg : Config) (now line pfn : List Char) (aj : List Asset) (m0 c : List Char),
       findAssetMatch line = none → wikiMatch line = some (m0, c) →
       ∃ msg, checkForAssets cfg now line pfn aj [] = Except.error msg) ∧
    checkForAssets ⟨"webp".data, "assets".data⟩ "T".data "![](pics/missing.png)".data
        "doc.md".data [] []
      = Except.ok ("![missing](/assets/missing.webp)".data,
          [⟨"missing".data, some "missing.png".data, some "png".data, "T".data,
            "pics/missing.png".data,
            [⟨"standard".data, ["doc.md".data], ["missing.webp".data]⟩]⟩]) := by
  refine ⟨?_, ?_, rfl⟩
  · intro line
    unfold convertObsidianLinks
    cases h : wikiMatch line with
    | none => rfl
    | some v => obtain ⟨m0, c⟩ := v; rfl
  · intro cfg now line pfn aj m0 c h1 h2
    unfold checkForAssets
    rw [h1]
    dsimp only
    rw [h2]
    dsimp only
    exact ⟨_, rfl⟩

/-- Witness for C4 amended: the `[[ghost]]` line with empty inventories. -/
theorem c4_witness :
    convertObsidianLinks "[[ghost]]".data ⟨[], []⟩ = "[[ghost]]".data ∧
    ∃ msg, checkForAssets ⟨"webp".data, "assets".data⟩ "T".data "[[ghost]]".data
      "doc.md".data [] [] = Except.error msg :=
  ⟨c4_unresolved_reference_amended.1 "[[ghost]]".data,
   c4_unresolved_reference_amended.2.1 ⟨"webp".data, "assets".data⟩ "T".data
     "[[ghost]]".data "doc.md".data [] "[[ghost]]".data "ghost".data
     (by decide) (by decide)⟩

/-- C8: Asset registration is idempotent and accumulating.  Re-registering
the same attachment/size pair from the same document is a no-op: the second
`addToAssetJson` call returns the very same variant and registry.
Registering the same pair from two different documents, starting from a
registry without that asset, yields exactly one `Asset` record carrying
exactly one `Size` variant whose referencing-document list contains both
documents, with no duplicate. -/
theorem c8_asset_registration :
    (∀ (reg : List Asset) (fn : List Char) (fne fe : Option (List Char))
       (p sz doc now : List Char) (s : Size) (reg' : List Asset)
       (fne2 fe2 : Option (List Char)) (p2 now2 : List Char),
       addToAssetJson reg fn fne fe (some p) sz doc now = .ok (s, reg') →
       addToAssetJson reg' fn fne2 fe2 (some p2) sz doc now2 = .ok (s, reg')) ∧
    (∀ (reg : List Asset) (fn : List Char) (fne fe fne2 fe2 : Option (List Char))
       (p p2 : List Char) (sz doc1 doc2 now now2 : List Char)
       (s1 : Size) (reg1 : List Asset) (s2 : Size) (reg2 : List Asset),
       findFirst (fun a => a.fileName == fn) reg = none →
       (doc2 == doc1) = false →
       addToAssetJson reg fn fne fe (some p) sz doc1 now = .ok (s1, reg1) →
       addToAssetJson reg1 fn fne2 fe2 (some p2) sz doc2 now2 = .ok (s2, reg2) →
       s2 = ⟨sz, [doc1, doc2], []⟩ ∧
       reg2 = reg ++ [⟨fn, fne, fe, now, p, [⟨sz, [doc1, doc2], []⟩]⟩] ∧
       (reg2.filter (fun a => a.fileName == fn)).length = 1) := by
  constructor
  · intro reg fn fne fe p sz doc now s reg' fne2 fe2 p2 now2 h
    obtain ⟨A, hA, hS, hD⟩ := addToAssetJson_found reg fn fne fe p sz doc now s reg' h
    unfold addToAssetJson
    rw [hA]
    dsimp only
    unfold getOrCreateSize
    rw [hS]
    dsimp only
    rw [if_pos hD]
    dsimp only
    rw [updateFirst_self _ _ _ A hA (by cases A; rfl)]
  · intro reg fn fne fe fne2 fe2 p p2 sz doc1 doc2 now now2 s1 reg1 s2 reg2 h0 hdoc h3 h4
    unfold addToAssetJson at h3
    rw [h0] at h3
    simp only [getOrCreateSize, findFirst, List.nil_append, Except.ok.injEq,
      Prod.mk.injEq] at h3
    obtain ⟨hs1, hreg1⟩ := h3
    subst hreg1
    unfold addToAssetJson at h4
    rw [findFirst_append_none _ _ _ h0] at h4
    simp only [findFirst, beq_self_eq_true, if_true, getOrCreateSize, includesB, hdoc,
      Bool.false_or, Bool.or_false, Bool.false_eq_true, if_false, updateFirst,
      List.singleton_append, List.cons_append, List.nil_append,
      Except.ok.injEq, Prod.mk.injEq] at h4
    obtain ⟨hs2, hreg2⟩ := h4
    rw [updateFirst_append_none _ _ _ _ h0] at hreg2
    simp only [updateFirst, beq_self_eq_true, if_true] at hreg2
    refine ⟨hs2.symm, ?_, ?_⟩
    · rw [← hreg2]
    · rw [← hreg2, List.filter_append, filter_nil_of_findFirst_none _ _ h0]
      simp [List.filter, beq_self_eq_true]

/-- Witness for C8: registering `img.png` at size `standard` from `a.md` and
then again (idempotent), and from `a.md` then `b.md` (accumulating). -/
theorem c8_witness :
    addToAssetJson
        [⟨"img".data, some "img.png".data, some "png".data, "T".data, "pics/img.png".data,
          [⟨"standard".data, ["a.md".data], []⟩]⟩]
        "img".data (some "img.png".data) (some "png".data) (some "pics/img.png".data)
        "standard".data "a.md".data "T".data
      = .ok (⟨"standard".data, ["a.md".data], []⟩,
          [⟨"img".data, some "img.png".data, some "png".data, "T".data, "pics/img.png".data,
            [⟨"standard".data, ["a.md".data], []⟩]⟩]) ∧
    ∃ s2 reg2,
      addToAssetJson
        [⟨"img".data, some "img.png".data, some "png".data, "T".data, "pics/img.png".data,
          [⟨"standard".data, ["a.md".data], []⟩]⟩]
        "img".data (some "img.png".data) (some "png".data) (some "pics/img.png".data)
        "standard".data "b.md".data "T".data = .ok (s2, reg2) ∧
      s2 = ⟨"standard".data, ["a.md".data, "b.md".data], []⟩ ∧
      reg2 = [⟨"img".data, some "img.png".data, some "png".data, "T".data,
        "pics/img.png".data, [⟨"standard".data, ["a.md".data, "b.md".data], []⟩]⟩] ∧
      (reg2.filter (fun a => a.fileName == "img".data)).length = 1 := by
  constructor
  · exact c8_asset_registration.1 [] "img".data (some "img.png".data) (some "png".data)
      "pics/img.png".data "standard".data "a.md".data "T".data
      ⟨"standard".data, ["a.md".data], []⟩
      [⟨"img".data, some "img.png".data, some "png".data, "T".data, "pics/img.png".data,
        [⟨"standard".data, ["a.md".data], []⟩]⟩]
      (some "img.png".data) (some "png".data) "pics/img.png".data "T".data rfl
  · refine ⟨_, _, rfl, ?_⟩
    have r := c8_asset_registration.2 [] "img".data (some "img.png".data) (some "png".data)
      (some "img.png".data) (some "png".data) "pics/img.png".data "pics/img.png".data
      "standard".data "a.md".data "b.md".data "T".data "T".data
      ⟨"standard".data, ["a.md".data], []⟩
      [⟨"img".data, some "img.png".data, some "png".data, "T".data, "pics/img.png".data,
        [⟨"standard".data, ["a.md".data], []⟩]⟩] _ _ rfl (by decide) rfl rfl
    simpa using r
